import Mathlib

/-!
Shallow embedding of the nightlights-and-returns pipeline of this
repository: brightness aggregation (src/preprocess_lights.py),
firm-to-county matching (src/map_firms_to_counties.py), returns
standardization (src/preprocess_stocks.py), panel construction
(src/build_panel.py, src/features.py) and the fixed-effects regression
page (pages/5_Regression.py).  Numeric columns are modelled as
rationals, missing values (NaN or NaT) as none, and pandas frames as
lists of rows.  String-valued identifier columns whose exact text never
matters (tickers, county names, state names) are coded as naturals.
-/

namespace Nightlights

/-! ### Brightness aggregation, from src/preprocess_lights.py -/

/-- Raw VIIRS row with the columns load_data.load_raw_lights validates:
iso, id_1, name_1, id_2, name_2, year, month, nlsum, area. -/
structure RawLight where
  iso : String
  id1 : ℕ
  name1 : ℕ
  id2 : ℕ
  name2 : ℕ
  year : ℕ
  month : ℕ
  nlsum : ℚ
  area : ℚ
deriving DecidableEq, Repr

/-- Month stamp built from the year and month columns
(preprocess_lights.py line 96), coded as a single month count so the
2018-01-01 cutoff stays comparable. -/
def monthIndex (r : RawLight) : ℕ := 12 * r.year + r.month

/-- The 2018-01 cutoff of preprocess_lights.py line 101. -/
def cutoff2018 : ℕ := 12 * 2018 + 1

/-- Grouping key of the aggregation:
group_cols = [iso, id_1, name_1, id_2, name_2, date]
(preprocess_lights.py line 119). -/
structure LightKey where
  iso : String
  id1 : ℕ
  name1 : ℕ
  id2 : ℕ
  name2 : ℕ
  date : ℕ
deriving DecidableEq, Repr

/-- Group key of a raw row. -/
def lightKey (r : RawLight) : LightKey :=
  ⟨r.iso, r.id1, r.name1, r.id2, r.name2, monthIndex r⟩

/-- Per-row intensity nlsum / area (preprocess_lights.py line 116). -/
def avgRadMonth (r : RawLight) : ℚ := r.nlsum / r.area

/-- USA filter (line 77) and 2018-plus window (line 102), both applied
before aggregation. -/
def filteredLights (rows : List RawLight) : List RawLight :=
  (rows.filter (fun r => r.iso == "USA")).filter
    (fun r => decide (cutoff2018 ≤ monthIndex r))

/-- Distinct group keys in order of first appearance; pandas groupby
emits each key exactly once (the order keys come out in is irrelevant
to every claim below). -/
def groupKeys (rows : List RawLight) : List LightKey :=
  (rows.map lightKey).dedup

/-- Rows of one group. -/
def groupRows (rows : List RawLight) (k : LightKey) : List RawLight :=
  rows.filter (fun r => decide (lightKey r = k))

/-- Mean over a group of the per-row intensity:
groupby(group_cols)[avg_rad_month].mean() (lines 119-123). -/
def groupMeanAvgRad (rows : List RawLight) (k : LightKey) : ℚ :=
  ((groupRows rows k).map avgRadMonth).sum / ((groupRows rows k).length : ℚ)

/-- build_lights_monthly_by_coord (lines 61-158) restricted to the
columns the claims are about: one (key, intensity) row per distinct
group key; the later centroid merge only appends coordinate columns. -/
def buildLightsMonthlyByCoord (rows : List RawLight) : List (LightKey × ℚ) :=
  (groupKeys (filteredLights rows)).map
    (fun k => (k, groupMeanAvgRad (filteredLights rows) k))

/-- Intensity the aggregated table holds for a key. -/
def intensityAt (agg : List (LightKey × ℚ)) (k : LightKey) : Option ℚ :=
  (agg.find? (fun p => decide (p.1 = k))).map (fun p => p.2)

/-- Modelled from the spec: intensity = sum(radiance) / sum(area) per
group, the ratio-of-sums derivation the specification prescribes in
section 4.2.  It is named apart from the code's derivation because the
code computes a mean of per-row ratios instead. -/
def specRatioOfSums (rows : List RawLight) (k : LightKey) : ℚ :=
  ((groupRows rows k).map (fun r => r.nlsum)).sum /
    ((groupRows rows k).map (fun r => r.area)).sum

/-! ### Firm-to-county matching, from src/map_firms_to_counties.py -/

/-- County centroid row after deduplication and numeric conversion
(map_firms_to_counties.py lines 69-84): id_2 renamed county_fips,
centroid columns lat_round and lon_round. -/
structure County where
  fips : ℕ
  name : ℕ
  state : ℕ
  lat : ℚ
  lon : ℚ
deriving DecidableEq, Repr

/-- County row before numeric conversion; none models a centroid cell
that pd.to_numeric turns into NaN (dropped at lines 82-84). -/
structure CountyRaw where
  fips : ℕ
  name : ℕ
  state : ℕ
  lat : Option ℚ
  lon : Option ℚ
deriving DecidableEq, Repr

/-- Firm row after flexible column detection (lines 43-66); none models
a missing coordinate, dropped before matching (line 67). -/
structure Firm where
  ticker : ℕ
  name : ℕ
  lat : Option ℚ
  lon : Option ℚ
deriving DecidableEq, Repr

/-- drop_duplicates on id_2 keeps the first row per fips (line 72). -/
def dedupFipsAux : List CountyRaw → List ℕ → List CountyRaw
  | [], _ => []
  | c :: rest, seen =>
      if c.fips ∈ seen then dedupFipsAux rest seen
      else c :: dedupFipsAux rest (c.fips :: seen)

/-- Deduplicated county list, first row per fips surviving. -/
def dedupByFips (l : List CountyRaw) : List CountyRaw := dedupFipsAux l []

/-- Numeric conversion followed by dropna on the centroid columns
(lines 82-84). -/
def validCounties (l : List CountyRaw) : List County :=
  (dedupByFips l).filterMap (fun c =>
    match c.lat, c.lon with
    | some la, some lo => some ⟨c.fips, c.name, c.state, la, lo⟩
    | _, _ => none)

/-- Squared planar centroid distance of line 91, written with explicit
products. -/
def sqDist (la lo : ℚ) (c : County) : ℚ :=
  (c.lat - la) * (c.lat - la) + (c.lon - lo) * (c.lon - lo)

/-- Scan keeping the first row attaining the minimal distance, the
semantics of Series.idxmin on line 92: a later row replaces the running
best only when strictly closer. -/
def nearestAux (la lo : ℚ) (best : County) : List County → County
  | [] => best
  | c :: rest =>
      if sqDist la lo c < sqDist la lo best then nearestAux la lo c rest
      else nearestAux la lo best rest

/-- nearest_county (lines 90-93); none only on an empty county list. -/
def nearestCounty (la lo : ℚ) : List County → Option County
  | [] => none
  | c :: rest => some (nearestAux la lo c rest)

/-- Python exception classes this development distinguishes.  The
constructors valueError and fileNotFoundError embed exceptions the code
actually raises.  The constructor configurationError is modelled from
the spec: the specification names a ConfigurationError class (sections
4.1 and 7) that occurs nowhere in the repository, and the constructor
exists only so that claims about it can be stated. -/
inductive PyError where
  | valueError (msg : String)
  | fileNotFoundError (msg : String)
  | configurationError (msg : String)
deriving DecidableEq, Repr

/-- Check whether a result failed with the spec's ConfigurationError. -/
def isConfigurationError {α : Type} : Except PyError α → Bool
  | .error (.configurationError _) => true
  | _ => false

/-- build_firm_hq_to_county (lines 26-115): firms with missing
coordinates are dropped (line 67), counties are deduplicated by fips
and dropped when their centroid is not numeric (lines 69-84); an empty
county list raises ValueError (lines 86-87); otherwise every remaining
firm is mapped to the fips of its nearest county. -/
def buildFirmHqToCounty (firms : List Firm) (counties : List CountyRaw) :
    Except PyError (List (ℕ × ℕ)) :=
  let firmsN := firms.filterMap (fun f =>
    match f.lat, f.lon with
    | some la, some lo => some (f.ticker, la, lo)
    | _, _ => none)
  match validCounties counties with
  | [] => .error (.valueError "No valid county centroids after numeric conversion.")
  | c :: cs => .ok (firmsN.map (fun p => (p.1, (nearestAux p.2.1 p.2.2 c cs).fips)))

/-! ### Returns standardization, from src/preprocess_stocks.py -/

/-- Text of a ticker cell, modelled as the word it spells (a code that
also carries the alphabetical rank among the tickers in play), whether
it is uppercased, and whether whitespace surrounds it.  The claims
about this loader ask which transformations run, not how Unicode
uppercasing works, so this is the whole state str.strip().str.upper()
can touch. -/
structure TickText where
  word : ℕ
  uppercase : Bool
  padded : Bool
deriving DecidableEq, Repr

/-- The str.strip().str.upper() standardization of preprocess_stocks.py
line 73. -/
def stripUpper (t : TickText) : TickText := ⟨t.word, true, false⟩

/-- Row of the raw monthly-returns frame as load_data.load_raw_returns
delivers it: the date column was already parsed with coercion
(load_data.py lines 128-129), so dates are datetime-or-NaT, here an
Option month stamp; the returns cell may be missing or non-numeric,
also an Option. -/
structure StockRow where
  ticker : TickText
  date : Option ℕ
  ret : Option ℚ
deriving DecidableEq, Repr

/-- Returns frame together with the name its returns column carries in
the raw file (ret or return). -/
structure RetFrame where
  retColumnName : String
  rows : List StockRow
deriving DecidableEq, Repr

/-- Order on optional dates with the missing date (NaT) last, the
na_position policy of sort_values. -/
def optDateLe : Option ℕ → Option ℕ → Bool
  | _, none => true
  | none, some _ => false
  | some x, some y => decide (x ≤ y)

/-- Sort key of sort_values([ticker, date]) with missing dates last;
the rows being sorted carry already-standardized tickers, whose string
order is their alphabetical word order. -/
def stockLe (a b : StockRow) : Prop :=
  a.ticker.word < b.ticker.word ∨
    (a.ticker.word = b.ticker.word ∧ optDateLe a.date b.date = true)

instance : DecidableRel stockLe := fun a b => by
  unfold stockLe; infer_instance

/-- First, shadowed definition of load_returns_standardized
(preprocess_stocks.py lines 8-83): accept a ret or return column and
rename it to ret, strip and uppercase tickers, drop rows with a missing
date or returns value, sort by ticker and date. -/
def loadReturnsStandardizedShadowed (f : RetFrame) : Except PyError RetFrame :=
  if f.retColumnName = "ret" ∨ f.retColumnName = "return" then
    .ok { retColumnName := "ret"
        , rows := List.insertionSort stockLe
            ((f.rows.map (fun r => { r with ticker := stripUpper r.ticker })).filter
              (fun r => r.date.isSome && r.ret.isSome)) }
  else
    .error (.valueError "Expected a return or ret column in returns file.")

/-- Second, module-level definition of load_returns_standardized
(lines 85-88), the one Python actually exports: it shadows the first
and only re-runs pd.to_datetime on the date column, which is the
identity on a column that load_raw_returns already parsed, leaving the
column name, tickers, missing cells and row order untouched. -/
def loadReturnsStandardized (f : RetFrame) : RetFrame :=
  { retColumnName := f.retColumnName
  , rows := f.rows.map (fun r => { r with date := r.date }) }

/-! ### Forward returns, from src/features.py and src/build_panel.py -/

/-- Clean returns row: ticker, month stamp, realized return. -/
structure RetRow where
  ticker : ℕ
  date : ℕ
  ret : ℚ
deriving DecidableEq, Repr

/-- Lexicographic key of sort_values([ticker, date]) (features.py line
145, build_panel.py line 177). -/
def retKeyLe (a b : RetRow) : Prop :=
  a.ticker < b.ticker ∨ (a.ticker = b.ticker ∧ a.date ≤ b.date)

instance : DecidableRel retKeyLe := fun a b => by
  unfold retKeyLe; infer_instance

instance : IsTotal RetRow retKeyLe :=
  ⟨by intro a b; unfold retKeyLe; omega⟩

instance : IsTrans RetRow retKeyLe :=
  ⟨by intro a b c; unfold retKeyLe; omega⟩

/-- The sorted returns frame. -/
def sortReturns (rows : List RetRow) : List RetRow :=
  List.insertionSort retKeyLe rows

/-- Returns row with its forward value ret_fwd_1m. -/
structure FwdRow where
  row : RetRow
  fwd : Option ℚ
deriving DecidableEq, Repr

/-- groupby(ticker)[ret].shift(-1) walked over the ticker-and-date
sorted frame (features.py line 146, build_panel.py line 180): after the
lexicographic sort each ticker's rows are contiguous, so the next row
carries the forward value exactly when it has the same ticker. -/
def attachFwd : List RetRow → List FwdRow
  | [] => []
  | [a] => [⟨a, none⟩]
  | a :: b :: rest =>
      ⟨a, if b.ticker = a.ticker then some b.ret else none⟩ :: attachFwd (b :: rest)

/-- Sort then shift: the forward-return derivation of features.py
lines 145-146. -/
def addRetFwd (rows : List RetRow) : List FwdRow :=
  attachFwd (sortReturns rows)

/-- Minus-one shift of a single entity series: the value column moved
up one slot with a missing value in the last slot. -/
def shiftMinusOne (s : List RetRow) : List (Option ℚ) :=
  match s with
  | [] => []
  | _ :: rest => rest.map (fun r => some r.ret) ++ [none]

/-- One row per (ticker, month): the key invariant of the
ReturnObservation table. -/
def retKeysDistinct (rows : List RetRow) : Prop :=
  rows.Pairwise (fun x y => x.ticker ≠ y.ticker ∨ x.date ≠ y.date)

instance (rows : List RetRow) : Decidable (retKeysDistinct rows) := by
  unfold retKeysDistinct; infer_instance

/-! ### Panel construction, from src/build_panel.py -/

/-- Merge key (state_key, county_key) of build_panel.py lines 121-133. -/
structure RegionKey where
  state : ℕ
  county : ℕ
deriving DecidableEq, Repr

/-- Firm HQ mapping row: ticker with its assigned region. -/
structure HQRow where
  ticker : ℕ
  region : RegionKey
deriving DecidableEq, Repr

/-- County-level lights row of lights_monthly_by_coord. -/
structure CountyLight where
  region : RegionKey
  date : ℕ
  avgRad : ℚ
deriving DecidableEq, Repr

/-- Joined panel row; none models NaN and NaT cells left merges leave. -/
structure PanelRow where
  ticker : ℕ
  region : RegionKey
  date : Option ℕ
  avgRad : Option ℚ
  ret : Option ℚ
deriving DecidableEq, Repr

/-- Left merge of the HQ mapping with lights on (state_key, county_key)
(build_panel.py lines 158-162): every firm contributes one row per
lights month of its region, or a single row with missing date and
brightness when its region never appears in lights. -/
def mergeHqLights (hq : List HQRow) (lights : List CountyLight) : List PanelRow :=
  hq.flatMap (fun h =>
    match lights.filter (fun l => decide (l.region = h.region)) with
    | [] => [⟨h.ticker, h.region, none, none, none⟩]
    | ls => ls.map (fun l => ⟨h.ticker, h.region, some l.date, some l.avgRad, none⟩))

/-- Left merge with returns on (ticker, date) (lines 170-174): rows
without a matching return keep a missing ret cell. -/
def mergeRets (rets : List RetRow) (p : PanelRow) : List PanelRow :=
  match rets.filter (fun r =>
      decide (r.ticker = p.ticker) && decide ((some r.date : Option ℕ) = p.date)) with
  | [] => [p]
  | rs => rs.map (fun r => { p with ret := some r.ret })

/-- The joined table before sorting and feature derivation. -/
def panelJoined (hq : List HQRow) (lights : List CountyLight)
    (rets : List RetRow) : List PanelRow :=
  (mergeHqLights hq lights).flatMap (mergeRets rets)

/-- Sort key of sort_values([ticker, date]) on the panel (line 177). -/
def panelKeyLe (a b : PanelRow) : Prop :=
  a.ticker < b.ticker ∨ (a.ticker = b.ticker ∧ optDateLe a.date b.date = true)

instance : DecidableRel panelKeyLe := fun a b => by
  unfold panelKeyLe; infer_instance

instance : IsTotal PanelRow panelKeyLe :=
  ⟨by
    intro a b
    unfold panelKeyLe
    rcases a.date with _ | x <;> rcases b.date with _ | y <;> simp [optDateLe] <;> omega⟩

instance : IsTrans PanelRow panelKeyLe :=
  ⟨by
    intro a b c
    unfold panelKeyLe
    rcases a.date with _ | x <;> rcases b.date with _ | y <;> rcases c.date with _ | z <;>
      simp [optDateLe] <;> omega⟩

/-- The sorted panel. -/
def sortPanel (l : List PanelRow) : List PanelRow :=
  List.insertionSort panelKeyLe l

/-- groupby(ticker)[ret].shift(-1) on the sorted panel (line 180); the
shifted value is the neighboring ret cell, missing when that cell is
itself missing. -/
def attachPanelFwd : List PanelRow → List (PanelRow × Option ℚ)
  | [] => []
  | [a] => [(a, none)]
  | a :: b :: rest =>
      (a, if b.ticker = a.ticker then b.ret else none) :: attachPanelFwd (b :: rest)

/-- Output row of build_panel with both derived columns. -/
structure FinalRow where
  ticker : ℕ
  region : RegionKey
  date : Option ℕ
  avgRad : Option ℚ
  ret : Option ℚ
  retFwd : Option ℚ
  bc : Option ℚ
deriving DecidableEq, Repr

/-- Subtraction over missing cells: NaN propagates. -/
def optSub : Option ℚ → Option ℚ → Option ℚ
  | some a, some b => some (a - b)
  | _, _ => none

/-- groupby([state_key, county_key])[avg_rad_month].diff() (lines
184-186) walked in frame order: each row's brightness_change is its
brightness minus the brightness cell of the previous row of the same
region wherever in the frame that row sits; seen carries the most
recent brightness cell per region. -/
def diffByRegion : List (PanelRow × Option ℚ) → List (RegionKey × Option ℚ) → List FinalRow
  | [], _ => []
  | (p, fwd) :: rest, seen =>
      let bc := match (seen.find? (fun s => decide (s.1 = p.region))).map (fun s => s.2) with
        | none => none
        | some prev => optSub p.avgRad prev
      ⟨p.ticker, p.region, p.date, p.avgRad, p.ret, fwd, bc⟩ ::
        diffByRegion rest ((p.region, p.avgRad) :: seen)

/-- build_panel_firms_with_brightness (build_panel.py lines 95-212)
restricted to its computational content: join, sort, forward return,
brightness change.  The function saves this table as the final model
dataset without dropping any row. -/
def buildPanel (hq : List HQRow) (lights : List CountyLight)
    (rets : List RetRow) : List FinalRow :=
  diffByRegion (attachPanelFwd (sortPanel (panelJoined hq lights rets))) []

/-- Core columns of a final row, used to relate the output back to the
joined table. -/
def coreOf (f : FinalRow) : PanelRow :=
  ⟨f.ticker, f.region, f.date, f.avgRad, f.ret⟩

/-! ### Fixed-effects regression, from pages/5_Regression.py -/

/-- dropna on date (5_Regression.py lines 87-88) and on
brightness_change together with the forward return (lines 100-103):
the frame the page regresses on.  modeling.run_basic_regression applies
the same dropna on brightness_change and ret_fwd (modeling.py line
13). -/
def pageCleaned (panel : List FinalRow) : List FinalRow :=
  panel.filter (fun r => r.date.isSome && (r.bc.isSome && r.retFwd.isSome))

/-- year_month of a cleaned row, derived from its date (line 106). -/
def monthOf (r : FinalRow) : ℕ := r.date.getD 0

/-- Covariance estimators the repository mentions: nonrobust is the
classical OLS one, hc1 the White-type heteroskedasticity-robust one the
page requests (5_Regression.py line 183), clusterByFirm the
firm-clustered one of modeling.py lines 20-23. -/
inductive CovType where
  | nonrobust
  | hc1
  | clusterByFirm
deriving DecidableEq, Repr

/-- Statistics the page reports (lines 193-230 and the summary table at
lines 205-214). -/
inductive ReportedStat where
  | nObs
  | rSquared
  | rSquaredAdj
  | coefficient
  | standardError
  | tStatistic
  | pValue
deriving DecidableEq, Repr

/-- Fitted-model description: outcome vector, treatment-coded design
matrix, covariance request and reported statistics.  The numeric
solving itself happens inside statsmodels, outside this repository. -/
structure FEModel where
  months : List ℕ
  design : List (List ℚ)
  outcome : List ℚ
  covType : CovType
  reported : List ReportedStat
deriving DecidableEq, Repr

/-- Page-level failures.  The constructor stopped embeds the page
halting through st.error followed by st.stop (5_Regression.py lines
109-114).  The constructor insufficientVariationError is modelled from
the spec: the specification names an InsufficientVariationError class
(sections 4.5 and 7) that occurs nowhere in the repository, and the
constructor exists only so that claims about it can be stated. -/
inductive PageError where
  | stopped (msg : String)
  | insufficientVariationError (msg : String)
deriving DecidableEq, Repr

/-- Check whether a page run failed with the spec's
InsufficientVariationError. -/
def isInsufficientVariation {α : Type} : Except PageError α → Bool
  | .error (.insufficientVariationError _) => true
  | _ => false

/-- Treatment-coded design row smf.ols builds for the formula
y tilde brightness_change + C(year_month): intercept, the brightness
regressor, then one indicator per distinct month except the first
(reference) level, which patsy drops. -/
def designRow (months : List ℕ) (m : ℕ) (bcv : ℚ) : List ℚ :=
  1 :: bcv :: (months.drop 1).map (fun mm => if m = mm then 1 else 0)

/-- Sorted distinct month levels, the level order patsy uses for
C(year_month) on year-month strings. -/
def monthLevels (df : List FinalRow) : List ℕ :=
  List.insertionSort (fun a b => a ≤ b) ((df.map monthOf).dedup)

/-- The guard message of 5_Regression.py lines 109-114. -/
def variationStopMsg : String :=
  "Not enough variation in brightness_change or returns after cleaning. Double-check that brightness_change and return columns are populated."

/-- Regression-page pipeline (5_Regression.py lines 84-230): clean,
halt through st.error and st.stop when the cleaned frame is empty or
brightness_change shows fewer than two distinct values (lines 109-114),
else fit ordinary least squares on the month-fixed-effects design with
the HC1 robust covariance (lines 179-183) and report observations,
R squared, adjusted R squared, the brightness coefficient, its standard
error, t statistic and p value (lines 193-230). -/
def runRegressionPage (panel : List FinalRow) : Except PageError FEModel :=
  let df := pageCleaned panel
  if df.isEmpty || decide ((df.map (fun r => r.bc.getD 0)).dedup.length < 2) then
    .error (.stopped variationStopMsg)
  else
    let months := monthLevels df
    .ok { months := months
        , design := df.map (fun r => designRow months (monthOf r) (r.bc.getD 0))
        , outcome := df.map (fun r => r.retFwd.getD 0)
        , covType := .hc1
        , reported := [.nObs, .rSquared, .rSquaredAdj, .coefficient,
                       .standardError, .tStatistic, .pValue] }

/-- dropna(subset=[brightness_change, ret_fwd]) of modeling.py line 13,
the filter every regression entry point applies before fitting. -/
def modelingInput (panel : List FinalRow) : List FinalRow :=
  panel.filter (fun r => r.bc.isSome && r.retFwd.isSome)

/-- Shape the fitted model must have for the fixed-effects contract:
the covariance request is the White-type HC1 (and that differs from the
classical nonrobust one); the brightness coefficient with standard
error, t statistic, p value, R squared and adjusted R squared are
reported; the month levels are the sorted distinct months of the
cleaned frame; the outcome is the forward-return column; and every
design row is the intercept, the brightness change, then one indicator
per distinct month except the first (reference) level, the indicator
being one exactly on rows of that month. -/
def FEModelSpecOk (panel : List FinalRow) (m : FEModel) : Prop :=
  m.covType = CovType.hc1 ∧
  CovType.hc1 ≠ CovType.nonrobust ∧
  m.reported = [.nObs, .rSquared, .rSquaredAdj, .coefficient,
                .standardError, .tStatistic, .pValue] ∧
  m.months.Sorted (fun a b => a ≤ b) ∧
  m.months.Nodup ∧
  (∀ mm, mm ∈ m.months ↔ mm ∈ (pageCleaned panel).map monthOf) ∧
  m.outcome = (pageCleaned panel).map (fun r => r.retFwd.getD 0) ∧
  m.design.length = (pageCleaned panel).length ∧
  (∀ x ∈ m.design, x.length = m.months.length + 1) ∧
  (∀ i, ∀ hi : i < (pageCleaned panel).length, ∀ hd : i < m.design.length,
     (m.design.get ⟨i, hd⟩).take 2 =
       [1, ((pageCleaned panel).get ⟨i, hi⟩).bc.getD 0] ∧
     ∀ j, ∀ hj : j + 1 < m.months.length,
       (m.design.get ⟨i, hd⟩)[j + 2]? =
         some (if monthOf ((pageCleaned panel).get ⟨i, hi⟩) = m.months.get ⟨j + 1, hj⟩
               then 1 else 0))

/-! ### Concrete test fixtures -/

/-- Raw returns frame with a return column, a padded lowercase ticker,
a row with a missing returns cell, and rows out of ticker order. -/
def exFrameC10 : RetFrame :=
  ⟨"return",
   [⟨⟨1, false, true⟩, some 2, some 1⟩,
    ⟨⟨0, false, false⟩, some 1, none⟩,
    ⟨⟨0, false, false⟩, some 3, some 2⟩]⟩

/-- One firm with valid coordinates. -/
def exFirmsC8 : List Firm := [⟨0, 0, some 1, some 1⟩]

/-- County list whose single row lacks a numeric latitude, so that no
valid centroid survives the numeric conversion. -/
def exCountiesC8 : List CountyRaw := [⟨5, 0, 0, none, some 2⟩]

/-- Two raw brightness rows in the same (region, month) group with
unequal areas: radiance 1 over area 1, and radiance 0 over area 3. -/
def exLightsC3 : List RawLight :=
  [⟨"USA", 1, 1, 1, 1, 2020, 1, 1, 1⟩, ⟨"USA", 1, 1, 1, 1, 2020, 1, 0, 3⟩]

/-- The group key of both rows of exLightsC3. -/
def exKeyC3 : LightKey := ⟨"USA", 1, 1, 1, 1, 12 * 2020 + 1⟩

/-- Two rows of one group sharing the area 2. -/
def exLightsEqArea : List RawLight :=
  [⟨"USA", 1, 1, 1, 1, 2020, 1, 4, 2⟩, ⟨"USA", 1, 1, 1, 1, 2020, 1, 6, 2⟩]

/-- Already-aggregated data: one row per (region, month) group. -/
def exLightsC9 : List RawLight :=
  [⟨"USA", 1, 1, 1, 1, 2020, 1, 4, 2⟩, ⟨"USA", 1, 1, 1, 1, 2020, 2, 6, 3⟩]

/-- First row of exLightsC9. -/
def exRowC9 : RawLight := ⟨"USA", 1, 1, 1, 1, 2020, 1, 4, 2⟩

/-- Two counties with distinct centroids. -/
def exCountiesC6 : List County := [⟨0, 0, 0, 1, 2⟩, ⟨1, 0, 0, 3, 4⟩]

/-- A cleaned panel whose brightness_change column is constant. -/
def exDegC7 : List FinalRow :=
  [⟨0, ⟨0, 0⟩, some 1, some 10, some 1, some 1, some 2⟩,
   ⟨1, ⟨0, 0⟩, some 1, some 10, some 1, some 1, some 2⟩]

/-- One firm assigned to region (0, 0). -/
def exHqC5 : List HQRow := [⟨0, ⟨0, 0⟩⟩]

/-- Brightness for region (0, 0) in months 1 and 2. -/
def exLightsC5 : List CountyLight := [⟨⟨0, 0⟩, 1, 10⟩, ⟨⟨0, 0⟩, 2, 12⟩]

/-- A single return observation, for ticker 0 in month 1 only. -/
def exRetsC5 : List RetRow := [⟨0, 1, 1⟩]

/-- Two firms, tickers 0 and 1, sharing region (0, 0). -/
def exHqC4 : List HQRow := [⟨0, ⟨0, 0⟩⟩, ⟨1, ⟨0, 0⟩⟩]

/-- Brightness for the shared region in months 1 and 2: 10 then 12. -/
def exLightsC4 : List CountyLight := [⟨⟨0, 0⟩, 1, 10⟩, ⟨⟨0, 0⟩, 2, 12⟩]

/-- Returns for both tickers in both months. -/
def exRetsC4 : List RetRow := [⟨0, 1, 1⟩, ⟨0, 2, 2⟩, ⟨1, 1, 3⟩, ⟨1, 2, 4⟩]

/-- A cleaned two-row panel with two distinct months and two distinct
brightness changes, enough variation for the regression page. -/
def exPanelC2 : List FinalRow :=
  [⟨0, ⟨0, 0⟩, some 1, some 10, some 1, some 5, some 2⟩,
   ⟨0, ⟨0, 0⟩, some 2, some 12, some 2, some 6, some 3⟩]

/-- Returns for two tickers with distinct (ticker, month) keys, out of
order. -/
def exRetsC1 : List RetRow := [⟨1, 2, 5⟩, ⟨0, 1, 3⟩, ⟨1, 1, 4⟩]

/-! ### Helper lemmas -/

lemma find_map_keys (ks : List LightKey) (f : LightKey → ℚ) (k : LightKey)
    (hk : k ∈ ks) :
    (ks.map (fun x => (x, f x))).find? (fun p => decide (p.1 = k)) = some (k, f k) := by
  induction ks with
  | nil => cases hk
  | cons a ks ih =>
    by_cases hak : a = k
    · subst hak
      simp [List.find?]
    · rw [List.map_cons, List.find?_cons_of_neg]
      · exact ih (by
          rcases List.mem_cons.mp hk with h | h
          · exact absurd h.symm hak
          · exact h)
      · simp [hak]

lemma intensityAt_build (rows : List RawLight) (k : LightKey)
    (hk : k ∈ groupKeys (filteredLights rows)) :
    intensityAt (buildLightsMonthlyByCoord rows) k =
      some (groupMeanAvgRad (filteredLights rows) k) := by
  unfold intensityAt buildLightsMonthlyByCoord
  rw [find_map_keys _ _ _ hk]
  rfl

lemma filter_key_eq_single (l : List RawLight) (hn : (l.map lightKey).Nodup)
    (r : RawLight) (hr : r ∈ l) :
    l.filter (fun x => decide (lightKey x = lightKey r)) = [r] := by
  induction l with
  | nil => cases hr
  | cons x l ih =>
    rw [List.map_cons, List.nodup_cons] at hn
    rcases List.mem_cons.mp hr with h | h
    · subst h
      rw [List.filter_cons_of_pos (by simp)]
      have hnil : l.filter (fun x => decide (lightKey x = lightKey r)) = [] := by
        rw [List.filter_eq_nil_iff]
        intro y hy
        simp only [decide_eq_true_eq]
        intro hkey
        exact hn.1 (hkey ▸ List.mem_map_of_mem lightKey hy)
      rw [hnil]
    · rw [List.filter_cons_of_neg (by
        simp only [decide_eq_true_eq]
        intro hkey
        exact hn.1 (hkey ▸ List.mem_map_of_mem lightKey h))]
      exact ih hn.2 h

lemma nearestAux_mem (la lo : ℚ) :
    ∀ (l : List County) (best : County),
      nearestAux la lo best l = best ∨ nearestAux la lo best l ∈ l := by
  intro l
  induction l with
  | nil => intro best; exact Or.inl rfl
  | cons c rest ih =>
    intro best
    unfold nearestAux
    split
    · rcases ih c with h | h
      · exact Or.inr (by rw [h]; exact List.mem_cons_self _ _)
      · exact Or.inr (List.mem_cons_of_mem _ h)
    · rcases ih best with h | h
      · exact Or.inl h
      · exact Or.inr (List.mem_cons_of_mem _ h)

lemma nearestAux_le_best (la lo : ℚ) :
    ∀ (l : List County) (best : County),
      sqDist la lo (nearestAux la lo best l) ≤ sqDist la lo best := by
  intro l
  induction l with
  | nil => intro best; exact le_refl _
  | cons c rest ih =>
    intro best
    unfold nearestAux
    split
    · exact le_trans (ih c) (le_of_lt (by assumption))
    · exact ih best

lemma nearestAux_min (la lo : ℚ) :
    ∀ (l : List County) (best : County) (c : County), c ∈ l →
      sqDist la lo (nearestAux la lo best l) ≤ sqDist la lo c := by
  intro l
  induction l with
  | nil => intro best c hc; cases hc
  | cons x rest ih =>
    intro best c hc
    unfold nearestAux
    rcases List.mem_cons.mp hc with h | h
    · subst h
      split
      · exact nearestAux_le_best la lo rest c
      · exact le_trans (nearestAux_le_best la lo rest best) (not_lt.mp (by assumption))
    · split
      · exact ih x c h
      · exact ih best c h

lemma nearestAux_first (la lo : ℚ) :
    ∀ (l : List County) (best : County),
      ∃ l₁ l₂, best :: l = l₁ ++ (nearestAux la lo best l) :: l₂ ∧
        ∀ c ∈ l₁, sqDist la lo (nearestAux la lo best l) < sqDist la lo c := by
  intro l
  induction l with
  | nil =>
    intro best
    exact ⟨[], [], rfl, by intro c hc; cases hc⟩
  | cons x rest ih =>
    intro best
    unfold nearestAux
    split
    · rcases ih x with ⟨l₁, l₂, heq, hlt⟩
      refine ⟨best :: l₁, l₂, by rw [List.cons_append, ← heq], ?_⟩
      intro c hc
      rcases List.mem_cons.mp hc with h | h
      · subst h
        exact lt_of_le_of_lt (nearestAux_le_best la lo rest x) (by assumption)
      · exact hlt c h
    · rcases ih best with ⟨l₁, l₂, heq, hlt⟩
      cases l₁ with
      | nil =>
        simp only [List.nil_append] at heq
        refine ⟨[], x :: rest, ?_, by intro c hc; cases hc⟩
        rw [List.nil_append]
        have hb : nearestAux la lo best rest = best := by
          injection heq with h1 h2
          exact h1.symm
        rw [hb]
      | cons b l₁ =>
        rw [List.cons_append] at heq
        injection heq with h1 h2
        subst h1
        refine ⟨best :: x :: l₁, l₂, by simp only [List.cons_append]; rw [← h2], ?_⟩
        intro c hc
        rcases List.mem_cons.mp hc with h | h
        · subst h
          exact hlt c (List.mem_cons_self _ _)
        · rcases List.mem_cons.mp h with h' | h'
          · subst h'
            exact lt_of_lt_of_le (hlt best (List.mem_cons_self _ _)) (not_lt.mp (by assumption))
          · exact hlt c (List.mem_cons_of_mem _ h')

lemma sqDist_nonneg (la lo : ℚ) (c : County) : 0 ≤ sqDist la lo c :=
  add_nonneg (mul_self_nonneg _) (mul_self_nonneg _)

lemma sqDist_eq_zero (la lo : ℚ) (c : County)
    (h : sqDist la lo c = 0) : c.lat = la ∧ c.lon = lo := by
  unfold sqDist at h
  have h1 : (c.lat - la) * (c.lat - la) = 0 ∧ (c.lon - lo) * (c.lon - lo) = 0 :=
    (add_eq_zero_iff_of_nonneg (mul_self_nonneg _) (mul_self_nonneg _)).mp h
  constructor
  · have := mul_self_eq_zero.mp h1.1
    linarith [sub_eq_zero.mp this]
  · have := mul_self_eq_zero.mp h1.2
    linarith [sub_eq_zero.mp this]

lemma sorted_ticker_block {t : ℕ} {a b : RetRow} {rest : List RetRow}
    (hs : List.Sorted retKeyLe (a :: b :: rest))
    (hat : a.ticker = t) (hbt : b.ticker ≠ t) :
    ∀ c ∈ rest, c.ticker ≠ t := by
  intro c hc
  have hab : retKeyLe a b := List.rel_of_sorted_cons hs b (List.mem_cons_self _ _)
  have hbc : retKeyLe b c :=
    List.rel_of_sorted_cons (List.sorted_cons.mp hs).2 c hc
  unfold retKeyLe at hab hbc
  omega

lemma attachFwd_filter (t : ℕ) :
    ∀ s : List RetRow, List.Sorted retKeyLe s →
      (attachFwd s).filter (fun o => decide (o.row.ticker = t)) =
        attachFwd (s.filter (fun r => decide (r.ticker = t))) := by
  intro s
  induction s with
  | nil => intro _; rfl
  | cons a s ih =>
    intro hs
    cases s with
    | nil =>
      by_cases hat : a.ticker = t <;> simp [attachFwd, hat]
    | cons b rest =>
      have hs' : List.Sorted retKeyLe (b :: rest) := (List.sorted_cons.mp hs).2
      have hstep : attachFwd (a :: b :: rest) =
          ⟨a, if b.ticker = a.ticker then some b.ret else none⟩ :: attachFwd (b :: rest) := rfl
      by_cases hat : a.ticker = t
      · by_cases hbt : b.ticker = t
        · have hba : b.ticker = a.ticker := by rw [hat, hbt]
          have h1 : (a :: b :: rest).filter (fun r => decide (r.ticker = t)) =
              a :: b :: rest.filter (fun r => decide (r.ticker = t)) := by
            rw [List.filter_cons_of_pos (by simp [hat]),
              List.filter_cons_of_pos (by simp [hbt])]
          rw [h1, hstep,
            show attachFwd (a :: b :: rest.filter (fun r => decide (r.ticker = t))) =
              ⟨a, if b.ticker = a.ticker then some b.ret else none⟩ ::
                attachFwd (b :: rest.filter (fun r => decide (r.ticker = t)))
            from rfl]
          rw [List.filter_cons_of_pos (by simp [hat]), ih hs']
          rw [List.filter_cons_of_pos (by simp [hbt])]
        · have hba : ¬ b.ticker = a.ticker := by rw [hat]; exact hbt
          have hrest : rest.filter (fun r => decide (r.ticker = t)) = [] := by
            rw [List.filter_eq_nil_iff]
            intro c hc
            simp only [decide_eq_true_eq]
            exact sorted_ticker_block hs hat hbt c hc
          have h2 : (b :: rest).filter (fun r => decide (r.ticker = t)) = [] := by
            rw [List.filter_cons_of_neg (by simp [hbt]), hrest]
          have h1 : (a :: b :: rest).filter (fun r => decide (r.ticker = t)) = [a] := by
            rw [List.filter_cons_of_pos (by simp [hat]), h2]
          rw [h1, hstep, if_neg hba]
          rw [List.filter_cons_of_pos (by simp [hat]), ih hs', h2]
          rfl
      · have h1 : (a :: b :: rest).filter (fun r => decide (r.ticker = t)) =
            (b :: rest).filter (fun r => decide (r.ticker = t)) :=
          List.filter_cons_of_neg (by simp [hat])
        rw [h1, hstep]
        rw [List.filter_cons_of_neg (by simp [hat])]
        exact ih hs'

lemma attachFwd_const_ticker (t : ℕ) :
    ∀ s : List RetRow, (∀ x ∈ s, x.ticker = t) →
      attachFwd s = List.zipWith FwdRow.mk s (shiftMinusOne s) := by
  intro s
  induction s with
  | nil => intro _; rfl
  | cons a s ih =>
    intro hall
    cases s with
    | nil => rfl
    | cons b rest =>
      have hba : b.ticker = a.ticker := by
        rw [hall a (List.mem_cons_self _ _),
          hall b (List.mem_cons_of_mem _ (List.mem_cons_self _ _))]
      have htail := ih (fun x hx => hall x (List.mem_cons_of_mem _ hx))
      rw [show attachFwd (a :: b :: rest) =
          ⟨a, if b.ticker = a.ticker then some b.ret else none⟩ :: attachFwd (b :: rest)
        from rfl]
      rw [if_pos hba, htail]
      rfl

lemma pairwise_date_lt (t : ℕ) :
    ∀ l : List RetRow, (∀ x ∈ l, x.ticker = t) →
      l.Pairwise (fun x y => retKeyLe x y ∧ (x.ticker ≠ y.ticker ∨ x.date ≠ y.date)) →
      l.Pairwise (fun x y => x.date < y.date) := by
  intro l
  induction l with
  | nil => intro _ _; exact List.Pairwise.nil
  | cons a l ih =>
    intro hall hp
    rcases List.pairwise_cons.mp hp with ⟨ha, hp'⟩
    refine List.pairwise_cons.mpr
      ⟨?_, ih (fun x hx => hall x (List.mem_cons_of_mem _ hx)) hp'⟩
    intro y hy
    have h1 := ha y hy
    have h2 : a.ticker = t := hall a (List.mem_cons_self _ _)
    have h3 : y.ticker = t := hall y (List.mem_cons_of_mem _ hy)
    rcases h1 with ⟨hle, hne⟩
    unfold retKeyLe at hle
    omega

lemma attachPanelFwd_map_fst :
    ∀ s : List PanelRow, (attachPanelFwd s).map Prod.fst = s := by
  intro s
  induction s with
  | nil => rfl
  | cons a s ih =>
    cases s with
    | nil => rfl
    | cons b rest => simpa [attachPanelFwd] using ih

lemma diffByRegion_map_core :
    ∀ (xs : List (PanelRow × Option ℚ)) (seen : List (RegionKey × Option ℚ)),
      (diffByRegion xs seen).map coreOf = xs.map Prod.fst := by
  intro xs
  induction xs with
  | nil => intro seen; rfl
  | cons x rest ih =>
    intro seen
    cases x with
    | mk p fwd => simp [diffByRegion, coreOf, ih]

lemma mergeRets_fields (rets : List RetRow) (q p : PanelRow)
    (hp : p ∈ mergeRets rets q) :
    p.ticker = q.ticker ∧ p.region = q.region ∧ p.date = q.date ∧ p.avgRad = q.avgRad := by
  unfold mergeRets at hp
  split at hp
  · rcases List.mem_singleton.mp hp with rfl
    exact ⟨rfl, rfl, rfl, rfl⟩
  · rcases List.mem_map.mp hp with ⟨r, _, rfl⟩
    exact ⟨rfl, rfl, rfl, rfl⟩

lemma mergeHqLights_fields (hq : List HQRow) (lights : List CountyLight)
    (q : PanelRow) (hmem : q ∈ mergeHqLights hq lights) :
    ∃ h ∈ hq, q.ticker = h.ticker ∧ q.region = h.region ∧
      ((q.date = none ∧ q.avgRad = none) ∨
        ∃ l ∈ lights, l.region = h.region ∧ q.date = some l.date ∧
          q.avgRad = some l.avgRad) := by
  rcases List.mem_flatMap.mp hmem with ⟨h, hh, hq'⟩
  refine ⟨h, hh, ?_⟩
  rcases hfil : lights.filter (fun l => decide (l.region = h.region)) with _ | ⟨x, xs⟩
  · rw [hfil] at hq'
    rcases List.mem_singleton.mp hq' with rfl
    exact ⟨rfl, rfl, Or.inl ⟨rfl, rfl⟩⟩
  · rw [hfil] at hq'
    rcases List.mem_map.mp hq' with ⟨l, hl, rfl⟩
    have hl' : l ∈ lights.filter (fun l => decide (l.region = h.region)) := by
      rw [hfil]; exact hl
    rcases List.mem_filter.mp hl' with ⟨hlm, hreg⟩
    exact ⟨rfl, rfl, Or.inr ⟨l, hlm, by simpa using hreg, rfl, rfl⟩⟩

/-! ### Claim theorems -/

/-- C3, counterexample: on a (region, month) group holding radiance 1
over area 1 and radiance 0 over area 3, the code derives the intensity
(1 + 0) / 2 = 1 / 2 — the mean of the per-row radiance/area ratios —
while sum(radiance) / sum(area) is 1 / 4, so the derived intensity is
not the ratio of sums the claim states. -/
theorem C3_counterexample_mean_of_ratios :
    intensityAt (buildLightsMonthlyByCoord exLightsC3) exKeyC3 = some (1 / 2) ∧
    specRatioOfSums (filteredLights exLightsC3) exKeyC3 = 1 / 4 ∧
    ((1 : ℚ) / 2) ≠ 1 / 4 := by
  refine ⟨?_, ?_, by norm_num⟩ <;>
    norm_num [intensityAt, buildLightsMonthlyByCoord, groupKeys, filteredLights,
      groupMeanAvgRad, groupRows, avgRadMonth, lightKey, monthIndex, cutoff2018,
      exLightsC3, exKeyC3, specRatioOfSums, List.dedup, List.pwFilter]

/-- C3, amended: for every (region id, month) group the derived
intensity is the arithmetic mean over the group's rows of the per-row
ratio radiance/area, and this coincides with sum(radiance)/sum(area)
whenever every row of the group carries the same (nonzero) area — in
particular on singleton groups — though not in general. -/
theorem C3_amended_equal_area (rows : List RawLight) (k : LightKey) (a : ℚ)
    (_ha : a ≠ 0) (hk : k ∈ groupKeys (filteredLights rows))
    (harea : ∀ r ∈ groupRows (filteredLights rows) k, r.area = a) :
    intensityAt (buildLightsMonthlyByCoord rows) k =
      some (specRatioOfSums (filteredLights rows) k) := by
  rw [intensityAt_build rows k hk]
  congr 1
  set g := groupRows (filteredLights rows) k with hg
  have hmap : g.map avgRadMonth = g.map (fun r => r.nlsum * a⁻¹) :=
    List.map_congr_left (fun r hr => by
      rw [avgRadMonth, harea r hr, div_eq_mul_inv])
  have h1 : (g.map avgRadMonth).sum = (g.map (fun r => r.nlsum)).sum * a⁻¹ := by
    rw [hmap, ← List.sum_map_mul_right]
  have h2 : (g.map (fun r => r.area)).sum = (g.length : ℚ) * a := by
    have hc : g.map (fun r => r.area) = g.map (fun _ => a) :=
      List.map_congr_left (fun r hr => harea r hr)
    rw [hc, List.map_const', List.sum_replicate, nsmul_eq_mul]
  unfold groupMeanAvgRad specRatioOfSums
  rw [← hg, h1, h2]
  rw [div_eq_mul_inv, div_eq_mul_inv, mul_inv_rev]
  ring

/-- C3, witness for the amended theorem: on a group of two rows both of
area 2, the code's mean of ratios equals the ratio of sums. -/
theorem C3_amended_equal_area_witness :
    ((2 : ℚ) ≠ 0) ∧ exKeyC3 ∈ groupKeys (filteredLights exLightsEqArea) ∧
      (∀ r ∈ groupRows (filteredLights exLightsEqArea) exKeyC3, r.area = 2) ∧
      intensityAt (buildLightsMonthlyByCoord exLightsEqArea) exKeyC3 =
        some (specRatioOfSums (filteredLights exLightsEqArea) exKeyC3) :=
  ⟨by norm_num, by decide, by decide,
   C3_amended_equal_area exLightsEqArea exKeyC3 2 (by norm_num) (by decide) (by decide)⟩

/-- C9: the brightness aggregation never emits duplicate (region id,
month) keys, and on data that already has exactly one row per group key
it returns every per-row intensity radiance/area unchanged (aggregation
over singleton groups is the identity). -/
theorem C9_aggregation_idempotent (rows : List RawLight) :
    ((buildLightsMonthlyByCoord rows).map Prod.fst).Nodup ∧
    (((filteredLights rows).map lightKey).Nodup →
      ∀ r ∈ filteredLights rows,
        intensityAt (buildLightsMonthlyByCoord rows) (lightKey r) =
          some (avgRadMonth r)) := by
  constructor
  · have hfst : (buildLightsMonthlyByCoord rows).map Prod.fst
        = groupKeys (filteredLights rows) := by
      simp [buildLightsMonthlyByCoord, List.map_map, Function.comp_def]
    rw [hfst]
    exact List.nodup_dedup _
  · intro hn r hr
    have hk : lightKey r ∈ groupKeys (filteredLights rows) :=
      List.mem_dedup.mpr (List.mem_map_of_mem lightKey hr)
    rw [intensityAt_build rows _ hk]
    unfold groupMeanAvgRad groupRows
    rw [filter_key_eq_single _ hn r hr]
    simp

/-- C9, witness: on a two-row table with one row per group key, the
aggregator hands back the first row's intensity unchanged. -/
theorem C9_aggregation_idempotent_witness :
    (((filteredLights exLightsC9).map lightKey).Nodup) ∧
      intensityAt (buildLightsMonthlyByCoord exLightsC9) (lightKey exRowC9) =
        some (avgRadMonth exRowC9) :=
  ⟨by decide, (C9_aggregation_idempotent exLightsC9).2 (by decide) exRowC9 (by decide)⟩

/-- C6: for a nonempty county list the matcher returns a county of the
list whose squared planar distance to the firm coordinate is minimal;
it is the first county of the list attaining that minimum (deterministic
tie-break); and whenever the firm sits exactly on some listed county's
centroid the assigned county's centroid is exactly the firm coordinate
(distance zero). -/
theorem C6_nearest_region (la lo : ℚ) (cs : List County) (h : cs ≠ []) :
    ∃ m, nearestCounty la lo cs = some m ∧ m ∈ cs ∧
      (∀ c ∈ cs, sqDist la lo m ≤ sqDist la lo c) ∧
      (∃ l₁ l₂, cs = l₁ ++ m :: l₂ ∧ ∀ c ∈ l₁, sqDist la lo m < sqDist la lo c) ∧
      (∀ c ∈ cs, c.lat = la → c.lon = lo → m.lat = la ∧ m.lon = lo) := by
  cases cs with
  | nil => exact absurd rfl h
  | cons c rest =>
    refine ⟨nearestAux la lo c rest, rfl, ?_, ?_, ?_, ?_⟩
    · rcases nearestAux_mem la lo rest c with hm | hm
      · rw [hm]; exact List.mem_cons_self _ _
      · exact List.mem_cons_of_mem _ hm
    · intro d hd
      rcases List.mem_cons.mp hd with h' | h'
      · subst h'
        exact nearestAux_le_best la lo rest d
      · exact nearestAux_min la lo rest c d h'
    · exact nearestAux_first la lo rest c
    · intro d hd hla hlo
      have hd0 : sqDist la lo d = 0 := by
        unfold sqDist
        rw [hla, hlo]
        ring
      have hle : sqDist la lo (nearestAux la lo c rest) ≤ 0 := by
        rcases List.mem_cons.mp hd with h' | h'
        · subst h'
          exact hd0 ▸ nearestAux_le_best la lo rest d
        · exact hd0 ▸ nearestAux_min la lo rest c d h'
      exact sqDist_eq_zero la lo _ (le_antisymm hle (sqDist_nonneg la lo _))

/-- C6, witness: with two counties and the firm sitting on the first
centroid, the matcher picks that county at distance zero. -/
theorem C6_nearest_region_witness :
    exCountiesC6 ≠ [] ∧
      (∃ m, nearestCounty 1 2 exCountiesC6 = some m ∧ m ∈ exCountiesC6 ∧
        (∀ c ∈ exCountiesC6, sqDist 1 2 m ≤ sqDist 1 2 c) ∧
        (∃ l₁ l₂, exCountiesC6 = l₁ ++ m :: l₂ ∧
          ∀ c ∈ l₁, sqDist 1 2 m < sqDist 1 2 c) ∧
        (∀ c ∈ exCountiesC6, c.lat = 1 → c.lon = 2 → m.lat = 1 ∧ m.lon = 2)) :=
  ⟨by decide, C6_nearest_region 1 2 exCountiesC6 (by decide)⟩

/-- C8, counterexample: with no county rows the matcher fails with a
plain ValueError, not with the ConfigurationError class the claim names
(no such class exists anywhere in the repository). -/
theorem C8_counterexample_error_kind :
    buildFirmHqToCounty exFirmsC8 [] =
      .error (.valueError "No valid county centroids after numeric conversion.") ∧
    isConfigurationError (buildFirmHqToCounty exFirmsC8 []) = false :=
  ⟨rfl, rfl⟩

/-- C8, amended: if the county list is empty, or none of its rows
survives deduplication and numeric conversion of the centroid columns,
the matcher raises a ValueError — so it does fail rather than silently
return an empty ticker-to-region mapping, but with Python's built-in
ValueError rather than a ConfigurationError. -/
theorem C8_amended_empty_regions (firms : List Firm) (counties : List CountyRaw)
    (h : validCounties counties = []) :
    buildFirmHqToCounty firms counties =
      .error (.valueError "No valid county centroids after numeric conversion.") := by
  simp only [buildFirmHqToCounty, h]

/-- C8, witness: a county list whose only row lacks a numeric latitude
leaves no valid centroid, and the matcher raises the ValueError. -/
theorem C8_amended_empty_regions_witness :
    validCounties exCountiesC8 = [] ∧
      buildFirmHqToCounty exFirmsC8 exCountiesC8 =
        .error (.valueError "No valid county centroids after numeric conversion.") :=
  ⟨rfl, C8_amended_empty_regions exFirmsC8 exCountiesC8 rfl⟩

/-- C7, counterexample: on a cleaned panel with a single distinct month
and constant brightness_change the page halts through st.error followed
by st.stop, which is not a raised InsufficientVariationError (no such
class exists anywhere in the repository). -/
theorem C7_counterexample_stop_kind :
    runRegressionPage exDegC7 = .error (.stopped variationStopMsg) ∧
    isInsufficientVariation (runRegressionPage exDegC7) = false :=
  ⟨rfl, rfl⟩

/-- C7, amended: whenever brightness_change shows fewer than two
distinct values after the final filtering, the regression page stops
with an on-page error message before ever fitting, so no result — and
in particular no NaN or zero coefficient — is produced; the stop is an
st.error plus st.stop, not a raised InsufficientVariationError. -/
theorem C7_amended_variation_stop (panel : List FinalRow)
    (h : ((pageCleaned panel).map (fun r => r.bc.getD 0)).dedup.length < 2) :
    runRegressionPage panel = .error (.stopped variationStopMsg) := by
  unfold runRegressionPage
  have hb : ((pageCleaned panel).isEmpty
      || decide (((pageCleaned panel).map (fun r => r.bc.getD 0)).dedup.length < 2)) = true := by
    simp [h]
  simp [hb]

/-- C7, witness: the degenerate two-row panel has one distinct
brightness_change value and the page stops on it. -/
theorem C7_amended_variation_stop_witness :
    ((pageCleaned exDegC7).map (fun r => r.bc.getD 0)).dedup.length < 2 ∧
      runRegressionPage exDegC7 = .error (.stopped variationStopMsg) :=
  ⟨by decide, C7_amended_variation_stop exDegC7 (by decide)⟩

/-- C1: assuming one returns row per (ticker, month), for every ticker
the forward-return pipeline behaves as a per-ticker shift of minus one
in ascending time order: the rows of the sorted frame carrying that
ticker are a permutation of exactly that ticker's input rows (no other
ticker's rows enter), they are in strictly increasing date order, their
forward column is that ticker's return series shifted up one slot with
the last observed month left missing — so the forward value at each
month is the raw return of the same ticker's next observed month — and
the regression input keeps exactly the unchanged rows whose forward
return is present, rather than substituting zero. -/
theorem C1_forward_return (rows : List RetRow) (hkey : retKeysDistinct rows) (t : ℕ) :
    (((sortReturns rows).filter (fun r => decide (r.ticker = t))).Perm
        (rows.filter (fun r => decide (r.ticker = t)))) ∧
    (((sortReturns rows).filter (fun r => decide (r.ticker = t))).Pairwise
        (fun x y => x.date < y.date)) ∧
    ((addRetFwd rows).filter (fun o => decide (o.row.ticker = t)) =
      List.zipWith FwdRow.mk
        ((sortReturns rows).filter (fun r => decide (r.ticker = t)))
        (shiftMinusOne ((sortReturns rows).filter (fun r => decide (r.ticker = t))))) ∧
    (∀ panel : List FinalRow, ∀ o ∈ modelingInput panel, o.retFwd ≠ none ∧ o ∈ panel) := by
  have hsorted : List.Sorted retKeyLe (sortReturns rows) :=
    List.sorted_insertionSort retKeyLe rows
  have hperm : (sortReturns rows).Perm rows := List.perm_insertionSort retKeyLe rows
  have hall : ∀ x ∈ (sortReturns rows).filter (fun r => decide (r.ticker = t)),
      x.ticker = t := by
    intro x hx
    have := (List.mem_filter.mp hx).2
    simpa using this
  refine ⟨hperm.filter _, ?_, ?_, ?_⟩
  · have hkeysorted : (sortReturns rows).Pairwise
        (fun x y => x.ticker ≠ y.ticker ∨ x.date ≠ y.date) := by
      refine (hperm.pairwise_iff ?_).mpr hkey
      intro x y h
      omega
    have hpairf : ((sortReturns rows).filter (fun r => decide (r.ticker = t))).Pairwise
        (fun x y => retKeyLe x y ∧ (x.ticker ≠ y.ticker ∨ x.date ≠ y.date)) :=
      List.Pairwise.sublist (List.filter_sublist _) (hsorted.and hkeysorted)
    exact pairwise_date_lt t _ hall hpairf
  · rw [show addRetFwd rows = attachFwd (sortReturns rows) from rfl,
      attachFwd_filter t _ hsorted,
      attachFwd_const_ticker t _ hall]
  · intro panel o ho
    rcases List.mem_filter.mp ho with ⟨hm, hcond⟩
    simp only [Bool.and_eq_true, Option.isSome_iff_ne_none] at hcond
    exact ⟨hcond.2, hm⟩

/-- C1, witness: a three-row returns table with two tickers and
distinct keys, checked for ticker 1. -/
theorem C1_forward_return_witness :
    retKeysDistinct exRetsC1 ∧
    ((addRetFwd exRetsC1).filter (fun o => decide (o.row.ticker = 1)) =
      List.zipWith FwdRow.mk
        ((sortReturns exRetsC1).filter (fun r => decide (r.ticker = 1)))
        (shiftMinusOne ((sortReturns exRetsC1).filter (fun r => decide (r.ticker = 1))))) :=
  ⟨by decide, (C1_forward_return exRetsC1 (by decide) 1).2.2.1⟩

/-- C2: whenever the regression page reaches the fitting step, the
model it hands to statsmodels regresses the forward return on an
intercept, the brightness change and one indicator per distinct
calendar month with the first (reference) month dropped, and the
covariance it requests is the heteroskedasticity-robust White-type HC1,
not the classical OLS one; the brightness coefficient, its standard
error, t statistic, p value, R squared and adjusted R squared are the
reported statistics. -/
theorem C2_fe (panel : List FinalRow)
    (h1 : pageCleaned panel ≠ [])
    (h2 : 2 ≤ ((pageCleaned panel).map (fun r => r.bc.getD 0)).dedup.length) :
    ∃ m, runRegressionPage panel = .ok m ∧ FEModelSpecOk panel m := by
  have hguard : ((pageCleaned panel).isEmpty
      || decide (((pageCleaned panel).map (fun r => r.bc.getD 0)).dedup.length < 2)) = false := by
    simp [List.isEmpty_iff, h1]
    omega
  have hmlen : 1 ≤ (monthLevels (pageCleaned panel)).length := by
    unfold monthLevels
    rw [(List.perm_insertionSort _ _).length_eq]
    have hnn : ((pageCleaned panel).map monthOf).dedup ≠ [] := by
      intro hc
      exact h1 (List.map_eq_nil_iff.mp ((List.dedup_eq_nil _).mp hc))
    exact List.length_pos.mpr hnn
  refine ⟨{ months := monthLevels (pageCleaned panel)
          , design := (pageCleaned panel).map (fun r =>
              designRow (monthLevels (pageCleaned panel)) (monthOf r) (r.bc.getD 0))
          , outcome := (pageCleaned panel).map (fun r => r.retFwd.getD 0)
          , covType := .hc1
          , reported := [.nObs, .rSquared, .rSquaredAdj, .coefficient,
                         .standardError, .tStatistic, .pValue] }, ?_, ?_⟩
  · simp only [runRegressionPage]
    rw [hguard]
    simp
  · dsimp only
    refine ⟨rfl, by decide, rfl, ?_, ?_, ?_, rfl, List.length_map _ _, ?_, ?_⟩
    · exact List.sorted_insertionSort _ _
    · exact (List.perm_insertionSort _ _).nodup_iff.mpr (List.nodup_dedup _)
    · intro mm
      exact (List.perm_insertionSort _ _).mem_iff.trans List.mem_dedup
    · intro x hx
      rcases List.mem_map.mp hx with ⟨r, _, rfl⟩
      unfold designRow
      simp only [List.length_cons, List.length_map, List.length_drop]
      omega
    · intro i hi hd
      dsimp only at hd
      constructor
      · simp only [List.get_eq_getElem, List.getElem_map]
        rfl
      · intro j hj
        dsimp only at hj
        simp only [List.get_eq_getElem, List.getElem_map]
        unfold designRow
        rw [List.getElem?_cons_succ, List.getElem?_cons_succ, List.getElem?_map,
          List.getElem?_drop, Nat.add_comm 1 j, List.getElem?_eq_getElem (by omega)]
        rfl

/-- C2, witness: a two-month panel with varying brightness change
passes the guards and yields the fixed-effects model shape. -/
theorem C2_fe_witness :
    (pageCleaned exPanelC2 ≠ []) ∧
    2 ≤ ((pageCleaned exPanelC2).map (fun r => r.bc.getD 0)).dedup.length ∧
    (∃ m, runRegressionPage exPanelC2 = .ok m ∧ FEModelSpecOk exPanelC2 m) :=
  ⟨by decide, by decide, C2_fe exPanelC2 (by decide) (by decide)⟩

/-- C4: evaluation of the panel builder at two firms that share one
region, the failing input of the claim.  Sorting goes by (ticker, date)
while the brightness diff groups by region, so the second firm's first
month receives the change 10 − 12 = −2, computed from the first firm's
last row rather than from the region's own previous month: the two
firms disagree at (region (0,0), month 1) — none against some (−2) —
and −2 is not any month-over-month change of the region's series
[10, 12].  The claim (and the spec's lag-correctness property) says
both rows must carry a missing change there. -/
theorem C4_cross_ticker_diff :
    (buildPanel exHqC4 exLightsC4 exRetsC4).map (fun r => (r.ticker, r.date, r.bc)) =
      [(0, some 1, none), (0, some 2, some 2),
       (1, some 1, some (-2)), (1, some 2, some 2)] := by
  norm_num [buildPanel, panelJoined, mergeHqLights, mergeRets, sortPanel,
    List.insertionSort, List.orderedInsert, panelKeyLe, optDateLe,
    attachPanelFwd, diffByRegion, optSub, exHqC4, exLightsC4, exRetsC4]

/-- C5, counterexample: with brightness for region (0,0) in months 1
and 2 but a return observation only for (ticker 0, month 1), the saved
panel contains a row for (ticker 0, month 2) — a (ticker, month) absent
from the returns table — kept with a missing return, because both
merges are left joins, not inner ones. -/
theorem C5_counterexample_left_join :
    buildPanel exHqC5 exLightsC5 exRetsC5 =
      [⟨0, ⟨0, 0⟩, some 1, some 10, some 1, none, none⟩,
       ⟨0, ⟨0, 0⟩, some 2, some 12, none, none, some 2⟩] ∧
    exRetsC5.filter (fun r =>
      decide (r.ticker = 0) && decide ((some r.date : Option ℕ) = some 2)) = [] := by
  constructor
  · norm_num [buildPanel, panelJoined, mergeHqLights, mergeRets, sortPanel,
      List.insertionSort, List.orderedInsert, panelKeyLe, optDateLe,
      attachPanelFwd, diffByRegion, optSub, exHqC5, exLightsC5, exRetsC5]
  · decide

/-- C5, amended: the panel builder's merges are left joins.  Every
output row stems from a row of the joined table (nothing is dropped on
the way to the saved panel); every joined row carries the ticker and
region of some HQ row; every lights month of a firm's region produces a
row even when the (ticker, month) is absent from the returns table, in
which case the return cell is kept missing; and a row's date and
intensity come from an actual lights row — intensity is never zero- or
forward-filled, so a returns (ticker, month) whose region lacks
brightness that month contributes no row. -/
theorem C5_amended_left_joins (hq : List HQRow) (lights : List CountyLight)
    (rets : List RetRow) :
    ((buildPanel hq lights rets).map coreOf).Perm (panelJoined hq lights rets) ∧
    (∀ p ∈ panelJoined hq lights rets,
      ∃ h ∈ hq, p.ticker = h.ticker ∧ p.region = h.region) ∧
    (∀ h ∈ hq, ∀ l ∈ lights, l.region = h.region →
      rets.filter (fun r =>
        decide (r.ticker = h.ticker) && decide ((some r.date : Option ℕ) = some l.date)) = [] →
      (⟨h.ticker, h.region, some l.date, some l.avgRad, none⟩ : PanelRow) ∈
        panelJoined hq lights rets) ∧
    (∀ p ∈ panelJoined hq lights rets,
      (p.date = none ∧ p.avgRad = none) ∨
        ∃ l ∈ lights, l.region = p.region ∧ p.date = some l.date ∧
          p.avgRad = some l.avgRad) := by
  refine ⟨?_, ?_, ?_, ?_⟩
  · unfold buildPanel
    rw [diffByRegion_map_core, attachPanelFwd_map_fst]
    exact List.perm_insertionSort panelKeyLe _
  · intro p hp
    rcases List.mem_flatMap.mp hp with ⟨q, hql, hpq⟩
    rcases mergeHqLights_fields hq lights q hql with ⟨h, hh, ht, hr, _⟩
    rcases mergeRets_fields rets q p hpq with ⟨ht', hr', _, _⟩
    exact ⟨h, hh, ht' ▸ ht, hr' ▸ hr⟩
  · intro h hh l hl hreg hfil
    apply List.mem_flatMap.mpr
    refine ⟨⟨h.ticker, h.region, some l.date, some l.avgRad, none⟩, ?_, ?_⟩
    · unfold mergeHqLights
      apply List.mem_flatMap.mpr
      refine ⟨h, hh, ?_⟩
      have hl' : l ∈ lights.filter (fun l' => decide (l'.region = h.region)) :=
        List.mem_filter.mpr ⟨hl, by simpa using hreg⟩
      rcases hfc : lights.filter (fun l' => decide (l'.region = h.region)) with _ | ⟨x, xs⟩
      · rw [hfc] at hl'; cases hl'
      · rw [hfc] at hl'
        rw [hfc]
        exact List.mem_map.mpr ⟨l, hl', rfl⟩
    · unfold mergeRets
      rw [hfil]
      exact List.mem_singleton.mpr rfl
  · intro p hp
    rcases List.mem_flatMap.mp hp with ⟨q, hql, hpq⟩
    rcases mergeHqLights_fields hq lights q hql with ⟨h, hh, ht, hr, hcase⟩
    rcases mergeRets_fields rets q p hpq with ⟨ht', hr', hd', ha'⟩
    rcases hcase with ⟨hdn, han⟩ | ⟨l, hlm, hlr, hld, hla⟩
    · exact Or.inl ⟨hd' ▸ hdn, ha' ▸ han⟩
    · exact Or.inr ⟨l, hlm, by rw [hr', hr, hlr], hd' ▸ hld, ha' ▸ hla⟩

/-- C5, witness for the amended theorem: month 2 of the firm's region
has no return observation, yet its panel row is present with a missing
return cell. -/
theorem C5_amended_left_joins_witness :
    (exRetsC5.filter (fun r =>
      decide (r.ticker = (0 : ℕ)) && decide ((some r.date : Option ℕ) = some 2)) = []) ∧
    (⟨0, ⟨0, 0⟩, some 2, some 12, none⟩ : PanelRow) ∈
      panelJoined exHqC5 exLightsC5 exRetsC5 :=
  ⟨by decide,
   (C5_amended_left_joins exHqC5 exLightsC5 exRetsC5).2.2.1
     ⟨0, ⟨0, 0⟩⟩ (by decide) ⟨⟨0, 0⟩, 2, 12⟩ (by decide) rfl (by decide)⟩

/-- C10: the load_returns_standardized the module actually exports is
its second, shadowing definition: it returns the raw frame with the
date column merely re-parsed (the identity on the already-parsed
column), keeping the return column name, tickers, missing rows and row
order untouched — while the shadowed first definition, run on a frame
with a return column, a padded lowercase ticker, a missing returns cell
and unsorted rows, renames the column to ret, strips and uppercases the
tickers, drops the incomplete row and sorts by ticker and date. -/
theorem C10_shadowing_loader (f : RetFrame) :
    loadReturnsStandardized f = f ∧
    loadReturnsStandardizedShadowed exFrameC10 =
      Except.ok ⟨"ret", [⟨⟨0, true, false⟩, some 3, some 2⟩,
                         ⟨⟨1, true, false⟩, some 2, some 1⟩]⟩ := by
  constructor
  · cases f with
    | mk n rs => simp [loadReturnsStandardized]
  · rfl

end Nightlights
